import Mathlib

/-!
Verification of the keyword-research aggregation and scoring engine
(`modules/keyword_researcher.py` and `modules/data_analyzer.py`).

Python numeric values are modelled exactly: Python `float`/`int` arithmetic on
the small decimal constants of this code is modelled over `ℚ` (respectively
`ℤ`), Python `round` is round-half-to-even (`pyRoundInt`), Python `int(...)`
truncates toward zero (`pyInt`), and Python `//` is floor division.  Python
strings are modelled by `String` with character-list helpers for `in`,
`.lower()`, `.strip()` and `.split()`.  The insertion-ordered Python `dict`
used for de-duplication is modelled by an association list grown in insertion
order (`insertObs`/`groupObs`), and `list.sort(key=..., reverse=True)` by a
stable merge sort with the corresponding descending comparison.  The iteration
order of the Python `set` in `list(set(...))` is unspecified, so provider-id
de-duplication is modelled by `List.dedup`.
-/

set_option maxRecDepth 10000

/-- Does the character list `sub` occur as a prefix of `l`?  (Helper for the
Python substring test.) -/
def charListStarts : List Char → List Char → Bool
  | [], _ => true
  | _ :: _, [] => false
  | a :: as, b :: bs => a == b && charListStarts as bs

/-- Does the character list `sub` occur contiguously inside `l`? -/
def charListHas (sub : List Char) : List Char → Bool
  | [] => sub.isEmpty
  | c :: rest => charListStarts sub (c :: rest) || charListHas sub rest

/-- Python `sub in s` on strings. -/
def pyIn (sub s : String) : Bool := charListHas sub.data s.data

/-- Python `s.lower()` (the keywords handled here are ASCII). -/
def pyLower (s : String) : String := ⟨s.data.map Char.toLower⟩

/-- Python `s.strip()`: remove leading and trailing whitespace. -/
def pyStrip (s : String) : String :=
  ⟨((s.data.dropWhile Char.isWhitespace).reverse.dropWhile Char.isWhitespace).reverse⟩

/-- Helper for Python `s.split()`: split on whitespace runs, dropping empties;
`acc` holds the current word reversed. -/
def pySplitAux : List Char → List Char → List (List Char)
  | [], acc => if acc.isEmpty then [] else [acc.reverse]
  | c :: rest, acc =>
    if c.isWhitespace then
      if acc.isEmpty then pySplitAux rest [] else acc.reverse :: pySplitAux rest []
    else pySplitAux rest (c :: acc)

/-- Python `s.split()` (no separator argument). -/
def pySplit (s : String) : List String := (pySplitAux s.data []).map fun l => ⟨l⟩

/-- Python `round(q)`: round half to even, to an integer. -/
def pyRoundInt (q : ℚ) : ℤ :=
  let f := ⌊q⌋
  let r := q - f
  if r < 1/2 then f
  else if 1/2 < r then f + 1
  else if 2 ∣ f then f else f + 1

/-- Python `round(q, n)`: round half to even at `n` decimal digits. -/
def pyRound (q : ℚ) (n : ℕ) : ℚ := (pyRoundInt (q * 10 ^ n) : ℚ) / 10 ^ n

/-- Python `int(q)`: truncation toward zero. -/
def pyInt (q : ℚ) : ℤ := if 0 ≤ q then ⌊q⌋ else ⌈q⌉

/-- The `KeywordData` dataclass of `keyword_researcher.py`: one provider's raw
observation for one keyword.  `search_volume` is declared `int` in the source
but Python does not enforce the annotation and the heuristic estimator can
produce a non-integral float, so the field is modelled over `ℚ`. -/
structure KeywordData where
  keyword : String
  search_volume : ℚ
  cpc : ℚ
  competition : String
  difficulty : ℤ
  intent : String
  trend_data : List ℤ
  related_keywords : List String
  source : String
deriving DecidableEq, Inhabited

/-- `KeywordResearcher.get_competition_level`. -/
def get_competition_level (competition_score : ℚ) : String :=
  if competition_score ≥ 0.7 then "High"
  else if competition_score ≥ 0.4 then "Medium"
  else "Low"

/-- `KeywordResearcher.determine_intent`. -/
def determine_intent (keyword : String) : String :=
  let keyword_lower := pyLower keyword
  if ["buy", "purchase", "price", "cost", "cheap", "deal", "discount"].any
      (fun word => pyIn word keyword_lower) then "Commercial"
  else if ["how to", "what is", "guide", "tips", "tutorial", "learn"].any
      (fun word => pyIn word keyword_lower) then "Informational"
  else if ["login", "website", "official", "contact"].any
      (fun word => pyIn word keyword_lower) then "Navigational"
  else if ["near me", "local", "store", "shop"].any
      (fun word => pyIn word keyword_lower) then "Local"
  else if ["review", "comparison", "vs", "best", "top"].any
      (fun word => pyIn word keyword_lower) then "Investigation"
  else "Mixed"

/-- `KeywordResearcher.estimate_search_volume`.  Python mixes `int` and
`float` here: `*= 5`, `//= 3`, `//= 2` and `*= 2` stay integral (`//` is floor
division), while `*= 1.5` promotes to `float`; the result is the exact value
over `ℚ`. -/
def estimate_search_volume (keyword : String) : ℚ :=
  let base0 : ℚ := 1000
  let words := (pySplit keyword).length
  let base1 : ℚ := if words = 1 then base0 * 5 else if words > 4 then ((⌊base0 / 3⌋ : ℤ) : ℚ) else base0
  let kl := pyLower keyword
  let base2 : ℚ :=
    if ["near me", "local"].any (fun word => pyIn word kl) then ((⌊base1 / 2⌋ : ℤ) : ℚ)
    else if ["best", "top", "review"].any (fun word => pyIn word kl) then base1 * 2
    else if ["how to", "what is", "guide"].any (fun word => pyIn word kl) then base1 * 1.5
    else base1
  max 100 base2

/-- `KeywordResearcher.estimate_cpc`. -/
def estimate_cpc (keyword : String) : ℚ :=
  let base_cpc : ℚ := 1.50
  let kl := pyLower keyword
  let c : ℚ :=
    if ["buy", "price", "cost", "cheap", "best"].any (fun word => pyIn word kl) then base_cpc * 2
    else if ["how to", "what is", "guide", "tips"].any (fun word => pyIn word kl) then base_cpc * 0.5
    else base_cpc
  pyRound c 2

/-- `KeywordResearcher.estimate_competition`. -/
def estimate_competition (keyword : String) : String :=
  if (pySplit keyword).length = 1 then "High"
  else if (pySplit keyword).length ≤ 3 then "Medium"
  else "Low"

/-- `KeywordResearcher.estimate_difficulty_from_keyword`. -/
def estimate_difficulty_from_keyword (keyword : String) : ℤ :=
  if (pySplit keyword).length = 1 then 80
  else if (pySplit keyword).length ≤ 3 then 50
  else 30

/-- The modifier vocabulary of `get_free_keyword_suggestions`. -/
def modifiers : List String :=
  ["best", "top", "cheap", "affordable", "near me", "reviews", "how to", "what is",
   "guide", "tips", "cost", "price", "vs", "comparison", "list", "services",
   "company", "local"]

/-- The six candidate phrases built per (modifier, seed) pair. -/
def variationsOf (modifier seed : String) : List String :=
  [modifier ++ " " ++ seed, seed ++ " " ++ modifier, "best " ++ seed,
   seed ++ " near me", "how to choose " ++ seed, seed ++ " reviews"]

/-- The `KeywordData` built for one heuristic variation. -/
def makeGeneratedObservation (variation : String) : KeywordData :=
  { keyword := variation
    search_volume := estimate_search_volume variation
    cpc := estimate_cpc variation
    competition := estimate_competition variation
    difficulty := estimate_difficulty_from_keyword variation
    intent := determine_intent variation
    trend_data := []
    related_keywords := []
    source := "Generated" }

/-- `KeywordResearcher.get_free_keyword_suggestions`: first 10 seeds crossed
with the modifier vocabulary, capped at 50 outputs. -/
def get_free_keyword_suggestions (seed_keywords : List String) : List KeywordData :=
  ((seed_keywords.take 10).flatMap fun seed =>
    modifiers.flatMap fun modifier =>
      (variationsOf modifier seed).map makeGeneratedObservation).take 50

/-- The normalised grouping key of `process_keyword_data`:
`kw_data.keyword.lower().strip()`. -/
def normKey (s : String) : String := pyStrip (pyLower s)

/-- One step of the grouping loop of `process_keyword_data`: the Python dict
preserves insertion order, so it is an association list; a new key goes to the
end, an existing key gets the observation appended to its group. -/
def insertObs (gs : List (String × List KeywordData)) (d : KeywordData) :
    List (String × List KeywordData) :=
  let k := normKey d.keyword
  if gs.any (fun g => decide (g.1 = k)) then
    gs.map fun g => if g.1 = k then (g.1, g.2 ++ [d]) else g
  else gs ++ [(k, [d])]

/-- The `keyword_groups` dict of `process_keyword_data`, in insertion order. -/
def groupObs (l : List KeywordData) : List (String × List KeywordData) :=
  l.foldl insertObs []

/-- The `intent_scores` dict lookup (with default 1) of
`calculate_opportunity_score`. -/
def intent_scores (intent : String) : ℚ :=
  if intent = "Commercial" then 2
  else if intent = "Investigation" then 1.5
  else if intent = "Local" then 1.5
  else if intent = "Informational" then 1
  else if intent = "Navigational" then 0.5
  else if intent = "Mixed" then 1
  else 1

/-- `KeywordResearcher.calculate_opportunity_score`. -/
def calculate_opportunity_score (volume : ℚ) (cpc : ℚ) (difficulty : ℤ)
    (intent : String) : ℚ :=
  let volumeScore : ℚ :=
    if volume ≥ 10000 then 3 else if volume ≥ 5000 then 2.5
    else if volume ≥ 1000 then 2 else if volume ≥ 500 then 1.5
    else if volume ≥ 100 then 1 else 0
  let cpcScore : ℚ :=
    if cpc ≥ 5.0 then 2 else if cpc ≥ 2.0 then 1.5
    else if cpc ≥ 1.0 then 1 else if cpc ≥ 0.5 then 0.5 else 0
  let difficultyScore : ℚ :=
    if difficulty ≤ 30 then 3 else if difficulty ≤ 50 then 2
    else if difficulty ≤ 70 then 1 else 0
  let score := volumeScore + cpcScore + difficultyScore + intent_scores intent
  pyRound (min score 10) 1

/-- The merged record dict built by `process_keyword_data`.  Note the dict
literal has exactly the nine keys of `processedKeywordFieldNames`; in
particular the observations' `related_keywords` are not carried over. -/
structure ProcessedKeyword where
  keyword : String
  search_volume : ℚ
  cpc : ℚ
  competition : String
  difficulty : ℤ
  intent : String
  opportunity_score : ℚ
  sources : List String
  trend_data : List ℤ
deriving DecidableEq, Inhabited

/-- The keys of the `processed_keyword` dict literal of
`process_keyword_data` (source lines 537-547), in source order. -/
def processedKeywordFieldNames : List String :=
  ["keyword", "search_volume", "cpc", "competition", "difficulty", "intent",
   "opportunity_score", "sources", "trend_data"]

/-- The loop body of `process_keyword_data` for one group, merging a group
into one record.  Groups are never empty (`headD` never falls back). -/
def mergeGroup (data_list : List KeywordData) : ProcessedKeyword :=
  let best_data := data_list.headD default
  let n := data_list.length
  let avg_volume : ℚ :=
    if 1 < n then ((⌊(data_list.map (·.search_volume)).sum / (n : ℚ)⌋ : ℤ) : ℚ)
    else best_data.search_volume
  let avg_cpc : ℚ :=
    if 1 < n then (data_list.map (·.cpc)).sum / (n : ℚ) else best_data.cpc
  let avg_difficulty : ℤ :=
    if 1 < n then Int.fdiv (data_list.map (·.difficulty)).sum (n : ℤ)
    else best_data.difficulty
  let sources : List String :=
    if 1 < n then (data_list.map (·.source)).dedup else [best_data.source]
  { keyword := best_data.keyword
    search_volume := avg_volume
    cpc := pyRound avg_cpc 2
    competition := best_data.competition
    difficulty := avg_difficulty
    intent := best_data.intent
    opportunity_score := calculate_opportunity_score avg_volume avg_cpc avg_difficulty best_data.intent
    sources := sources
    trend_data := best_data.trend_data }

/-- `KeywordResearcher.process_keyword_data`: group, merge, sort descending by
opportunity score (Python's stable `list.sort(reverse=True)`), truncate to
100. -/
def process_keyword_data (keyword_data_list : List KeywordData) : List ProcessedKeyword :=
  let processed_keywords := (groupObs keyword_data_list).map fun g => mergeGroup g.2
  (processed_keywords.mergeSort fun a b =>
    decide (b.opportunity_score ≤ a.opportunity_score)).take 100

/-- `KeywordResearcher.research_keywords`, with the network fan-out abstracted
by `provider_results`: the list of observation lists the successful provider
tasks delivered.  An unconfigured provider is never invoked and a failed task
is dropped by the `isinstance` filter after `asyncio.gather`, so both
contribute nothing; the heuristic suggestions are always appended, and the
combined list is processed. -/
def research_keywords (provider_results : List (List KeywordData))
    (initial_keywords : List String) : List ProcessedKeyword :=
  let all_keyword_data :=
    provider_results.foldl (· ++ ·) [] ++ get_free_keyword_suggestions initial_keywords
  process_keyword_data all_keyword_data

/-- The `difficulty` field `get_dataforseo_keywords` derives from a response
item's normalised 0–1 competition score: `int(competition * 100)`. -/
def dataforseoDifficulty (competition_score : ℚ) : ℤ := pyInt (competition_score * 100)

/-- `DataAnalyzer.calculate_efficiency_score`.  Note the source's
`max(1, 101 - difficulty)` guard on the difficulty factor. -/
def calculate_efficiency_score (volume : ℚ) (cpc : ℚ) (difficulty : ℤ) : ℚ :=
  if cpc ≤ 0 ∨ difficulty ≤ 0 then 0
  else
    let difficulty_factor : ℚ := ((max 1 (101 - difficulty) : ℤ) : ℚ) / 100
    let efficiency := (volume / max cpc 0.1) * difficulty_factor
    let normalized_efficiency := min (efficiency / 1000) 10
    pyRound normalized_efficiency 2

/-- The `budget_map` of `calculate_budget_fit`; Python's `float("inf")` upper
bound of the Enterprise tier is modelled by the top element of `WithTop ℚ`.
Unknown tiers default to the Medium bounds. -/
def budget_map (budget_range : String) : ℚ × WithTop ℚ :=
  if budget_range = "Low ($0-$500/month)" then (0, (500 : ℚ))
  else if budget_range = "Medium ($500-$2000/month)" then (500, (2000 : ℚ))
  else if budget_range = "High ($2000-$5000/month)" then (2000, (5000 : ℚ))
  else if budget_range = "Enterprise ($5000+/month)" then (5000, ⊤)
  else (500, (2000 : ℚ))

/-- `DataAnalyzer.calculate_budget_fit`. -/
def calculate_budget_fit (cpc : ℚ) (budget_range : String) : ℚ :=
  let bounds := budget_map budget_range
  let min_budget := bounds.1
  let max_budget := bounds.2
  let estimated_monthly_cost := cpc * 1000
  if estimated_monthly_cost ≤ min_budget * 0.1 then 10
  else if estimated_monthly_cost ≤ min_budget * 0.3 then 8
  else if (estimated_monthly_cost : WithTop ℚ) ≤ max_budget * ((0.5 : ℚ) : WithTop ℚ) then 6
  else if (estimated_monthly_cost : WithTop ℚ) ≤ max_budget then 4
  else 2

/-- The `goal_intent_map` of `calculate_goal_alignment` (unknown goals map to
the empty list). -/
def goal_intent_map (goal : String) : List String :=
  if goal = "Lead Generation" then ["Commercial", "Investigation", "Local"]
  else if goal = "Brand Awareness" then ["Informational", "Navigational", "Mixed"]
  else if goal = "Sales Conversion" then ["Commercial", "Investigation"]
  else if goal = "Traffic Growth" then ["Informational", "Mixed", "Navigational"]
  else if goal = "Local Visibility" then ["Local", "Commercial"]
  else if goal = "Competitor Analysis" then ["Investigation", "Commercial"]
  else []

/-- `DataAnalyzer.calculate_goal_alignment`. -/
def calculate_goal_alignment (intent : String) (campaign_goals : List String) : ℚ :=
  let alignment_score : ℚ := campaign_goals.foldl
    (fun acc goal =>
      if intent ∈ goal_intent_map goal then acc + 2
      else if intent ∈ (["Mixed", "Investigation"] : List String) then acc + 1
      else acc) 0
  min alignment_score 10

/-- The analysis dict returned by `analyze_competition_level`. -/
structure CompetitionAnalysis where
  level : String
  difficulty_score : ℤ
  market_indicators : List String
  strategy_recommendation : String
deriving DecidableEq, Inhabited

/-- `DataAnalyzer.analyze_competition_level`. -/
def analyze_competition_level (competition : String) (difficulty : ℤ) (cpc : ℚ) :
    CompetitionAnalysis :=
  let cpcIndicator : String :=
    if cpc > 5.0 then "High commercial value"
    else if cpc > 2.0 then "Moderate commercial value"
    else "Low commercial value"
  if difficulty > 80 then
    ⟨competition, difficulty, [cpcIndicator, "Highly competitive market"],
      "Consider long-tail variations or niche targeting"⟩
  else if difficulty > 60 then
    ⟨competition, difficulty, [cpcIndicator, "Competitive market"],
      "Requires strong content and backlink strategy"⟩
  else if difficulty > 40 then
    ⟨competition, difficulty, [cpcIndicator, "Moderately competitive"],
      "Good opportunity with proper optimization"⟩
  else
    ⟨competition, difficulty, [cpcIndicator, "Low competition opportunity"],
      "High potential for quick wins"⟩

/-- `DataAnalyzer.generate_keyword_recommendation`, as a function of the
record fields it reads. -/
def generate_keyword_recommendation (volume : ℚ) (cpc : ℚ) (difficulty : ℤ)
    (intent : String) (efficiency : ℚ) : String :=
  if efficiency ≥ 8 ∧ volume ≥ 1000 then
    "🎯 High Priority: Excellent opportunity with great efficiency"
  else if intent = "Commercial" ∧ cpc ≥ 2.0 then
    "💰 Commercial Focus: High-value keyword for conversion campaigns"
  else if intent = "Local" ∧ volume ≥ 500 then
    "📍 Local Opportunity: Great for geo-targeted campaigns"
  else if difficulty ≤ 30 ∧ volume ≥ 100 then
    "🚀 Quick Win: Low competition with decent volume"
  else if intent = "Informational" ∧ volume ≥ 1000 then
    "📚 Content Marketing: Ideal for educational campaigns"
  else if efficiency ≥ 6 then
    "✅ Recommended: Good balance of metrics"
  else if difficulty ≥ 80 then
    "⚠️ High Competition: Consider long-tail alternatives"
  else if volume < 100 then
    "📊 Low Volume: Monitor and test carefully"
  else
    "🔍 Consider: Evaluate based on specific campaign needs"

/-- `DataAnalyzer.calculate_enhanced_opportunity_score`, as a function of the
four component scores it reads from the record dict. -/
def calculate_enhanced_opportunity_score (base_score efficiency_score budget_fit
    goal_alignment : ℚ) : ℚ :=
  let enhanced_score :=
    base_score * 0.4 + efficiency_score * 0.3 + budget_fit * 0.2 + goal_alignment * 0.1
  pyRound (min enhanced_score 10) 2

/-- A record after `analyze_keywords`: the Python code adds keys to the row
dict, so the result is the incoming record (`base`) plus the attached
analysis fields. -/
structure AnalyzedKeyword where
  base : ProcessedKeyword
  efficiency_score : ℚ
  budget_fit_score : ℚ
  goal_alignment_score : ℚ
  competition_analysis : CompetitionAnalysis
  recommendation : String
  enhanced_opportunity_score : ℚ
deriving DecidableEq, Inhabited

/-- The loop body of `analyze_keywords` for one row. -/
def enhanceKeyword (budget_range : String) (campaign_goals : List String)
    (row : ProcessedKeyword) : AnalyzedKeyword :=
  let efficiency_score := calculate_efficiency_score row.search_volume row.cpc row.difficulty
  let budget_fit_score := calculate_budget_fit row.cpc budget_range
  let goal_alignment_score := calculate_goal_alignment row.intent campaign_goals
  let competition_analysis := analyze_competition_level row.competition row.difficulty row.cpc
  let recommendation := generate_keyword_recommendation row.search_volume row.cpc
    row.difficulty row.intent efficiency_score
  let enhanced := calculate_enhanced_opportunity_score row.opportunity_score
    efficiency_score budget_fit_score goal_alignment_score
  ⟨row, efficiency_score, budget_fit_score, goal_alignment_score,
    competition_analysis, recommendation, enhanced⟩

/-- `DataAnalyzer.analyze_keywords`: empty input short-circuits to `[]`;
otherwise every row is enhanced in order and the result is sorted descending
by enhanced score (stable). -/
def analyze_keywords (keywords : List ProcessedKeyword) (budget_range : String)
    (campaign_goals : List String) : List AnalyzedKeyword :=
  if keywords = [] then []
  else
    (keywords.map (enhanceKeyword budget_range campaign_goals)).mergeSort
      fun a b => decide (b.enhanced_opportunity_score ≤ a.enhanced_opportunity_score)

/-- The first (in arrival order) observation of the spec's dedup/merge test
group. -/
def exampleFirstObservation : KeywordData :=
  { keyword := "best tire shop", search_volume := 1000, cpc := 1,
    competition := "Medium", difficulty := 10, intent := "Investigation",
    trend_data := [], related_keywords := ["tire shop near me"], source := "DataForSEO" }

/-- The three-provider observation group from the spec's dedup/merge test
property (volumes 1000/2000/3000, cpc 1/2/3, difficulty 10/20/30). -/
def exampleObservations : List KeywordData :=
  [exampleFirstObservation,
   { keyword := "best tire shop", search_volume := 2000, cpc := 2,
     competition := "High", difficulty := 20, intent := "Commercial",
     trend_data := [], related_keywords := [], source := "SerpApi" },
   { keyword := "best tire shop", search_volume := 3000, cpc := 3,
     competition := "Low", difficulty := 30, intent := "Investigation",
     trend_data := [], related_keywords := [], source := "SEMrush" }]

/-- An observation with fixed metrics (volume 1000, cpc 1, difficulty 50,
Mixed intent), used to build a concrete input with more than 100 groups. -/
def mkFillerObservation (kw : String) : KeywordData :=
  { keyword := kw, search_volume := 1000, cpc := 1, competition := "Low",
    difficulty := 50, intent := "Mixed", trend_data := [], related_keywords := [],
    source := "Generated" }

/-- One hundred pairwise-distinct, already-normalised keywords. -/
def fillerKeywords : List String := (List.range 100).map fun i => "filler " ++ toString i

/-- A 102-observation input: 100 single-observation groups followed by one
two-observation group for "best tire shop", every observation carrying the
same metrics.  All 101 merged records then share one opportunity score, the
stable descending sort keeps insertion order, and the top-100 truncation of
`process_keyword_data` drops exactly the final — the two-observation —
group's record. -/
def truncationObservations : List KeywordData :=
  fillerKeywords.map mkFillerObservation ++
    [{ mkFillerObservation "best tire shop" with source := "DataForSEO" },
     { mkFillerObservation "best tire shop" with source := "SerpApi" }]

/-- Group lookup by key in the association list (the Python dict access). -/
def findGroup (gs : List (String × List KeywordData)) (k : String) :
    Option (List KeywordData) :=
  (gs.find? fun g => decide (g.1 = k)).map (·.2)

theorem insertObs_keys (gs : List (String × List KeywordData)) (d : KeywordData) :
    (insertObs gs d).map Prod.fst =
      if gs.any (fun g => decide (g.1 = normKey d.keyword)) then gs.map Prod.fst
      else gs.map Prod.fst ++ [normKey d.keyword] := by
  unfold insertObs
  split
  · rw [if_pos (by assumption)]
    rw [List.map_map]
    refine List.map_congr_left ?_
    intro g _
    show (if g.1 = normKey d.keyword then (g.1, g.2 ++ [d]) else g).1 = g.1
    split <;> rfl
  · rw [if_neg (by assumption)]
    simp

theorem foldl_insertObs_keys_nodup (l : List KeywordData)
    (gs : List (String × List KeywordData)) (h : (gs.map Prod.fst).Nodup) :
    ((l.foldl insertObs gs).map Prod.fst).Nodup := by
  induction l generalizing gs with
  | nil => exact h
  | cons d t ih =>
    simp only [List.foldl_cons]
    refine ih _ ?_
    rw [insertObs_keys]
    split
    · exact h
    · rename_i hany
      have hnotmem : normKey d.keyword ∉ gs.map Prod.fst := by
        intro hmem
        apply hany
        rw [List.any_eq_true]
        obtain ⟨g, hg, hfst⟩ := List.mem_map.1 hmem
        exact ⟨g, hg, by simp [hfst]⟩
      simp [List.nodup_append, h, hnotmem]

theorem find?_map_fst_preserving
    (f : (String × List KeywordData) → String × List KeywordData)
    (hf : ∀ g, (f g).1 = g.1) (gs : List (String × List KeywordData)) (k : String) :
    (gs.map f).find? (fun g => decide (g.1 = k)) =
      (gs.find? fun g => decide (g.1 = k)).map f := by
  induction gs with
  | nil => rfl
  | cons g t ih =>
    simp only [List.map_cons, List.find?_cons, hf g]
    by_cases hgk : g.1 = k <;> simp [hgk, ih]

theorem findGroup_insertObs (gs : List (String × List KeywordData)) (d : KeywordData)
    (k : String) :
    findGroup (insertObs gs d) k =
      if k = normKey d.keyword then some ((findGroup gs k).getD [] ++ [d])
      else findGroup gs k := by
  simp only [insertObs]
  cases hany : gs.any (fun g => decide (g.1 = normKey d.keyword)) with
  | false =>
    simp only [hany, Bool.false_eq_true, if_false]
    unfold findGroup
    rw [List.find?_append]
    by_cases hk : k = normKey d.keyword
    · have hnone : gs.find? (fun g => decide (g.1 = k)) = none := by
        cases hfind : gs.find? (fun g => decide (g.1 = k)) with
        | none => rfl
        | some a =>
          exfalso
          have hmem := List.mem_of_find?_eq_some hfind
          have hpa := List.find?_some hfind
          have htrue : gs.any (fun g => decide (g.1 = normKey d.keyword)) = true :=
            List.any_eq_true.2 ⟨a, hmem, by rw [← hk]; exact hpa⟩
          rw [htrue] at hany
          exact absurd hany (by decide)
      rw [if_pos hk, hnone]
      simp [List.find?_cons, hk]
    · rw [if_neg hk]
      have hsingle : [(normKey d.keyword, [d])].find? (fun g => decide (g.1 = k)) = none := by
        rw [List.find?_eq_none]
        intro x hx
        rw [List.mem_singleton] at hx
        subst hx
        simp only [decide_eq_true_eq]
        exact fun hcontra => hk hcontra.symm
      rw [hsingle]
      cases hfind : gs.find? (fun g => decide (g.1 = k)) <;> simp
  | true =>
    simp only [hany, if_true]
    unfold findGroup
    rw [find?_map_fst_preserving _ (fun g => by
      show (if g.1 = normKey d.keyword then (g.1, g.2 ++ [d]) else g).1 = g.1
      split <;> rfl)]
    by_cases hk : k = normKey d.keyword
    · rw [if_pos hk]
      obtain ⟨a, hamem, hap⟩ := List.any_eq_true.1 hany
      have hsome : (gs.find? fun g => decide (g.1 = k)).isSome := by
        rw [List.find?_isSome]
        exact ⟨a, hamem, by rw [hk]; exact hap⟩
      obtain ⟨b, hb⟩ := Option.isSome_iff_exists.1 hsome
      have hbk : b.1 = k := by
        have hpb := List.find?_some hb
        simpa using hpb
      rw [hb]
      have hite : (if b.1 = normKey d.keyword then (b.1, b.2 ++ [d]) else b) =
          (b.1, b.2 ++ [d]) := if_pos (by rw [hbk]; exact hk)
      simp [hite]
    · rw [if_neg hk]
      cases hfind : gs.find? (fun g => decide (g.1 = k)) with
      | none => simp
      | some a =>
        have ha1 : a.1 = k := by
          have hpa := List.find?_some hfind
          simpa using hpa
        have hite : (if a.1 = normKey d.keyword then (a.1, a.2 ++ [d]) else a) = a :=
          if_neg (by rw [ha1]; exact hk)
        simp [hite]

theorem findGroup_foldl (l : List KeywordData) (gs : List (String × List KeywordData))
    (k : String) :
    findGroup (l.foldl insertObs gs) k =
      match findGroup gs k, l.filter (fun d => decide (normKey d.keyword = k)) with
      | some g, f => some (g ++ f)
      | none, [] => none
      | none, f => some f := by
  induction l generalizing gs with
  | nil =>
    cases h : findGroup gs k <;> simp [h]
  | cons d t ih =>
    simp only [List.foldl_cons]
    rw [ih (insertObs gs d), findGroup_insertObs]
    by_cases hk : k = normKey d.keyword
    · rw [if_pos hk]
      have hd : decide (normKey d.keyword = k) = true := decide_eq_true hk.symm
      rw [List.filter_cons, hd]
      simp only [if_true]
      cases hg : findGroup gs k with
      | some g =>
        simp only [Option.getD_some]
        cases hf : t.filter (fun x => decide (normKey x.keyword = k)) <;> simp
      | none =>
        simp only [Option.getD_none, List.nil_append]
        cases hf : t.filter (fun x => decide (normKey x.keyword = k)) <;> simp
    · rw [if_neg hk]
      have hd : decide (normKey d.keyword = k) = false :=
        decide_eq_false fun hcontra => hk hcontra.symm
      rw [List.filter_cons, hd]
      simp only [Bool.false_eq_true, if_false]

theorem findGroup_groupObs (l : List KeywordData) (k : String) :
    findGroup (groupObs l) k =
      match l.filter (fun d => decide (normKey d.keyword = k)) with
      | [] => none
      | f => some f := by
  have h := findGroup_foldl l [] k
  have hnil : findGroup [] k = none := rfl
  rw [hnil] at h
  rw [groupObs, h]
  cases hf : l.filter (fun d => decide (normKey d.keyword = k)) <;> simp

theorem groupObs_keys_nodup (l : List KeywordData) :
    ((groupObs l).map Prod.fst).Nodup :=
  foldl_insertObs_keys_nodup l [] (by simp)

theorem find?_of_mem_nodup {gs : List (String × List KeywordData)} {k : String}
    {g : List KeywordData} (hnodup : (gs.map Prod.fst).Nodup) (h : (k, g) ∈ gs) :
    gs.find? (fun x => decide (x.1 = k)) = some (k, g) := by
  induction gs with
  | nil => cases h
  | cons a t ih =>
    rw [List.map_cons, List.nodup_cons] at hnodup
    rcases List.mem_cons.1 h with heq | hmem
    · rw [List.find?_cons, ← heq]
      simp
    · have ha1 : ¬ a.1 = k := by
        intro hcontra
        exact hnodup.1 (by rw [hcontra]; exact List.mem_map.2 ⟨(k, g), hmem, rfl⟩)
      rw [List.find?_cons]
      simp only [decide_eq_false ha1]
      exact ih hnodup.2 hmem

theorem mem_groupObs_filter {l : List KeywordData} {k : String} {g : List KeywordData}
    (h : (k, g) ∈ groupObs l) :
    g = l.filter (fun d => decide (normKey d.keyword = k)) ∧ g ≠ [] := by
  have hfind : findGroup (groupObs l) k = some g := by
    unfold findGroup
    rw [find?_of_mem_nodup (groupObs_keys_nodup l) h]
    rfl
  rw [findGroup_groupObs] at hfind
  cases hf : l.filter (fun d => decide (normKey d.keyword = k)) with
  | nil =>
    rw [hf] at hfind
    exact absurd hfind (by simp)
  | cons x t =>
    rw [hf] at hfind
    have hg : g = x :: t := (Option.some_inj.1 hfind).symm
    exact ⟨hg, by rw [hg]; exact List.cons_ne_nil x t⟩

theorem filter_mem_groupObs {l : List KeywordData} {k : String}
    (h : l.filter (fun d => decide (normKey d.keyword = k)) ≠ []) :
    (k, l.filter (fun d => decide (normKey d.keyword = k))) ∈ groupObs l := by
  have hfind : findGroup (groupObs l) k =
      some (l.filter (fun d => decide (normKey d.keyword = k))) := by
    rw [findGroup_groupObs]
    cases hf : l.filter (fun d => decide (normKey d.keyword = k)) with
    | nil => exact absurd hf h
    | cons x t => rfl
  unfold findGroup at hfind
  cases hfind2 : (groupObs l).find? (fun g => decide (g.1 = k)) with
  | none =>
    rw [hfind2] at hfind
    exact absurd hfind (by simp)
  | some a =>
    rw [hfind2] at hfind
    have ha2 : a.2 = l.filter (fun d => decide (normKey d.keyword = k)) := by
      simpa using hfind
    have ha1 : a.1 = k := by
      have hpa := List.find?_some hfind2
      simpa using hpa
    have hamem := List.mem_of_find?_eq_some hfind2
    have haeq : a = (k, l.filter (fun d => decide (normKey d.keyword = k))) := by
      cases a
      simp only at ha1 ha2
      rw [ha1, ha2]
    rw [← haeq]
    exact hamem

theorem filter_key_singleton {gs : List (String × List KeywordData)} {k : String}
    {g : List KeywordData} (hnodup : (gs.map Prod.fst).Nodup) (h : (k, g) ∈ gs) :
    gs.filter (fun x => decide (x.1 = k)) = [(k, g)] := by
  induction gs with
  | nil => cases h
  | cons a t ih =>
    rw [List.map_cons, List.nodup_cons] at hnodup
    rcases List.mem_cons.1 h with heq | hmem
    · subst heq
      have htail : t.filter (fun x => decide (x.1 = k)) = [] := by
        rw [List.filter_eq_nil_iff]
        intro x hx
        simp only [decide_eq_true_eq]
        intro hcontra
        apply hnodup.1
        rw [← hcontra]
        exact List.mem_map.2 ⟨x, hx, rfl⟩
      simp [List.filter_cons, htail]
    · have ha1 : ¬ a.1 = k := by
        intro hcontra
        exact hnodup.1 (by rw [hcontra]; exact List.mem_map.2 ⟨(k, g), hmem, rfl⟩)
      rw [List.filter_cons]
      simp only [decide_eq_false ha1, Bool.false_eq_true, if_false]
      exact ih hnodup.2 hmem

theorem mergeGroup_key {l : List KeywordData} {k : String} {g : List KeywordData}
    (h : (k, g) ∈ groupObs l) : normKey (mergeGroup g).keyword = k := by
  obtain ⟨hg, hne⟩ := mem_groupObs_filter h
  obtain ⟨x, t, hxt⟩ : ∃ x t, g = x :: t := by
    cases g with
    | nil => exact absurd rfl hne
    | cons x t => exact ⟨x, t, rfl⟩
  have hx : x ∈ l.filter (fun d => decide (normKey d.keyword = k)) := by
    rw [← hg, hxt]
    exact List.mem_cons_self x t
  have hxk : normKey x.keyword = k := by
    have hmem := (List.mem_filter.1 hx).2
    simpa using hmem
  have hkw : (mergeGroup g).keyword = x.keyword := by
    rw [hxt]
    rfl
  rw [hkw, hxk]

theorem process_length_le (l : List KeywordData) :
    (process_keyword_data l).length ≤ 100 := by
  unfold process_keyword_data
  rw [List.length_take]
  exact min_le_left _ _

theorem process_keys_eq_group_keys (l : List KeywordData) :
    ((groupObs l).map fun g => mergeGroup g.2).map (fun r => normKey r.keyword) =
      (groupObs l).map Prod.fst := by
  rw [List.map_map]
  refine List.map_congr_left ?_
  intro g hg
  have : (g.1, g.2) ∈ groupObs l := by
    cases g
    exact hg
  exact mergeGroup_key this

theorem process_keys_nodup (l : List KeywordData) :
    ((process_keyword_data l).map fun r => normKey r.keyword).Nodup := by
  simp only [process_keyword_data]
  rw [List.map_take]
  refine List.Nodup.sublist (List.take_sublist _ _) ?_
  have hperm : (((groupObs l).map fun g => mergeGroup g.2).mergeSort fun a b =>
      decide (b.opportunity_score ≤ a.opportunity_score)).Perm
      ((groupObs l).map fun g => mergeGroup g.2) := List.mergeSort_perm _ _
  rw [(hperm.map fun r => normKey r.keyword).nodup_iff]
  rw [process_keys_eq_group_keys]
  exact groupObs_keys_nodup l

theorem groupObs_ne_nil {l : List KeywordData} (h : l ≠ []) : groupObs l ≠ [] := by
  obtain ⟨d, t, hdt⟩ : ∃ d t, l = d :: t := by
    cases l with
    | nil => exact absurd rfl h
    | cons d t => exact ⟨d, t, rfl⟩
  have hfil : l.filter (fun x => decide (normKey x.keyword = normKey d.keyword)) ≠ [] := by
    rw [hdt, List.filter_cons]
    simp
  exact List.ne_nil_of_mem (filter_mem_groupObs hfil)

theorem process_nonempty {l : List KeywordData} (h : l ≠ []) :
    process_keyword_data l ≠ [] := by
  unfold process_keyword_data
  apply List.ne_nil_of_length_pos
  rw [List.length_take, List.length_mergeSort, List.length_map]
  have : 0 < (groupObs l).length := List.length_pos.2 (groupObs_ne_nil h)
  omega

theorem pyRoundInt_nonneg {q : ℚ} (h : 0 ≤ q) : 0 ≤ pyRoundInt q := by
  simp only [pyRoundInt]
  have hf : (0 : ℤ) ≤ ⌊q⌋ := Int.floor_nonneg.2 h
  split
  · exact hf
  · split
    · omega
    · split <;> omega

theorem pyRoundInt_le {q : ℚ} {m : ℤ} (h : q ≤ m) : pyRoundInt q ≤ m := by
  simp only [pyRoundInt]
  have hfm : ⌊q⌋ ≤ m := by
    have := Int.floor_mono h
    rwa [Int.floor_intCast] at this
  split
  · exact hfm
  · rename_i hlt
    push_neg at hlt
    have hr : (0 : ℚ) < q - ⌊q⌋ := lt_of_lt_of_le (by norm_num) hlt
    have hflt : (⌊q⌋ : ℚ) < q := by linarith
    have hfm2 : ⌊q⌋ < m := by
      by_contra hcontra
      push_neg at hcontra
      have : (m : ℚ) ≤ ⌊q⌋ := by exact_mod_cast hcontra
      have : (m : ℚ) < q := lt_of_le_of_lt this hflt
      have : (m : ℚ) < m := lt_of_lt_of_le this h
      exact lt_irrefl _ this
    split
    · omega
    · split <;> omega

theorem pyRound_nonneg {q : ℚ} (h : 0 ≤ q) (n : ℕ) : 0 ≤ pyRound q n := by
  unfold pyRound
  have h1 : (0 : ℚ) ≤ (pyRoundInt (q * 10 ^ n) : ℚ) := by
    have := pyRoundInt_nonneg (q := q * 10 ^ n) (by positivity)
    exact_mod_cast this
  positivity

theorem pyRound_le {q : ℚ} {m : ℤ} (h : q ≤ m) (n : ℕ) : pyRound q n ≤ m := by
  unfold pyRound
  have hle : q * 10 ^ n ≤ ((m * 10 ^ n : ℤ) : ℚ) := by
    push_cast
    have hpow : (0 : ℚ) < 10 ^ n := by positivity
    exact mul_le_mul_of_nonneg_right h (le_of_lt hpow)
  have h1 : pyRoundInt (q * 10 ^ n) ≤ m * 10 ^ n := pyRoundInt_le hle
  have h2 : (pyRoundInt (q * 10 ^ n) : ℚ) ≤ ((m * 10 ^ n : ℤ) : ℚ) := by exact_mod_cast h1
  rw [div_le_iff₀ (by positivity : (0 : ℚ) < 10 ^ n)]
  push_cast at h2 ⊢
  linarith

theorem pyRoundInt_intCast (m : ℤ) : pyRoundInt (m : ℚ) = m := by
  simp only [pyRoundInt, Int.floor_intCast]
  have hz : (m : ℚ) - m = 0 := by ring
  rw [hz]
  norm_num

theorem pyRound_intCast (m : ℤ) (n : ℕ) : pyRound (m : ℚ) n = m := by
  unfold pyRound
  have hc : (m : ℚ) * 10 ^ n = ((m * 10 ^ n : ℤ) : ℚ) := by push_cast; ring
  rw [hc, pyRoundInt_intCast]
  push_cast
  field_simp

theorem pyRound_eq_of_eq_intCast {q : ℚ} {m : ℤ} (n : ℕ) (h : q * 10 ^ n = (m : ℚ)) :
    pyRound q n = (m : ℚ) / 10 ^ n := by
  unfold pyRound
  rw [h, pyRoundInt_intCast]

/-- Claim C3: for every input observation list of any size and any merge
ratio, `process_keyword_data` returns at most 100 records, and the
normalised (trimmed, lowercased) keyword keys of its records are pairwise
distinct. -/
theorem process_keyword_data_cap_and_unique_keys (l : List KeywordData) :
    (process_keyword_data l).length ≤ 100 ∧
    ((process_keyword_data l).map fun r => normKey r.keyword).Nodup :=
  ⟨process_length_le l, process_keys_nodup l⟩

theorem free_suggestions_length_pos (s : String) (t : List String) :
    0 < (get_free_keyword_suggestions (s :: t)).length := by
  unfold get_free_keyword_suggestions
  rw [List.length_take]
  have hcons : (s :: t).take 10 = s :: t.take 9 := rfl
  rw [hcons, List.flatMap_cons, List.length_append]
  have h108 : (modifiers.flatMap fun modifier =>
      (variationsOf modifier s).map makeGeneratedObservation).length = 108 := rfl
  omega

/-- Claim C1: for every non-empty seed list, `research_keywords` returns a
non-empty record list no matter what the (possibly empty) set of successful
network providers contributed, because `get_free_keyword_suggestions` always
adds at least one observation for a non-empty seed list. -/
theorem research_keywords_nonempty (provider_results : List (List KeywordData))
    (initial_keywords : List String) (h : initial_keywords ≠ []) :
    research_keywords provider_results initial_keywords ≠ [] := by
  simp only [research_keywords]
  apply process_nonempty
  intro hcontra
  obtain ⟨hl, hr⟩ := List.append_eq_nil.1 hcontra
  obtain ⟨s, t, hst⟩ : ∃ s t, initial_keywords = s :: t := by
    cases initial_keywords with
    | nil => exact absurd rfl h
    | cons s t => exact ⟨s, t, rfl⟩
  have hpos := free_suggestions_length_pos s t
  rw [← hst, hr] at hpos
  simp at hpos

/-- Witness for C1 at the concrete seed list of the spec's scenario. -/
theorem research_keywords_nonempty_witness :
    (["tire dealers"] : List String) ≠ [] ∧
    research_keywords [] ["tire dealers"] ≠ [] :=
  ⟨by simp, research_keywords_nonempty [] ["tire dealers"] (by simp)⟩

/-- Claim C4: for volume ≥ 0, cpc ≥ 0, difficulty in [0,100] and a recognized
intent label, the opportunity score lies in [0, 10]. -/
theorem opportunity_score_bounds (volume cpc : ℚ) (difficulty : ℤ) (intent : String)
    (hv : 0 ≤ volume) (hc : 0 ≤ cpc) (hd0 : 0 ≤ difficulty) (hd1 : difficulty ≤ 100)
    (hi : intent ∈ ["Commercial", "Informational", "Navigational", "Local",
      "Investigation", "Mixed"]) :
    0 ≤ calculate_opportunity_score volume cpc difficulty intent ∧
      calculate_opportunity_score volume cpc difficulty intent ≤ 10 := by
  simp only [calculate_opportunity_score]
  constructor
  · refine pyRound_nonneg (le_min ?_ (by norm_num)) 1
    have hint : 0 ≤ intent_scores intent := by
      unfold intent_scores
      split_ifs <;> norm_num
    refine add_nonneg (add_nonneg (add_nonneg ?_ ?_) ?_) hint <;> (split_ifs <;> norm_num)
  · have hmin : min ((if volume ≥ 10000 then (3:ℚ) else if volume ≥ 5000 then 2.5
        else if volume ≥ 1000 then 2 else if volume ≥ 500 then 1.5
        else if volume ≥ 100 then 1 else 0) +
        (if cpc ≥ 5.0 then (2:ℚ) else if cpc ≥ 2.0 then 1.5 else if cpc ≥ 1.0 then 1
        else if cpc ≥ 0.5 then 0.5 else 0) +
        (if difficulty ≤ 30 then (3:ℚ) else if difficulty ≤ 50 then 2
        else if difficulty ≤ 70 then 1 else 0) + intent_scores intent) 10 ≤ ((10:ℤ):ℚ) := by
      push_cast
      exact min_le_right _ _
    have := pyRound_le hmin 1
    exact_mod_cast this

/-- Witness for C4 at volume 1000, cpc 2, difficulty 20, Commercial intent. -/
theorem opportunity_score_bounds_witness :
    (0 ≤ (1000:ℚ)) ∧ (0 ≤ (2:ℚ)) ∧ (0 ≤ (20:ℤ)) ∧ ((20:ℤ) ≤ 100) ∧
    ("Commercial" ∈ ["Commercial", "Informational", "Navigational", "Local",
      "Investigation", "Mixed"]) ∧
    (0 ≤ calculate_opportunity_score 1000 2 20 "Commercial" ∧
      calculate_opportunity_score 1000 2 20 "Commercial" ≤ 10) :=
  ⟨by norm_num, by norm_num, by norm_num, by norm_num, by simp,
   opportunity_score_bounds 1000 2 20 "Commercial" (by norm_num) (by norm_num)
     (by norm_num) (by norm_num) (by simp)⟩

/-- The efficiency-score formula exactly as claim C5 words it, i.e. with a
bare `(101 - difficulty)/100` factor instead of the source's
`max(1, 101 - difficulty)/100`; defined only to be compared against
`calculate_efficiency_score`. -/
def claimed_efficiency_formula (volume cpc : ℚ) (difficulty : ℤ) : ℚ :=
  if cpc ≤ 0 ∨ difficulty ≤ 0 then 0
  else pyRound (min ((volume / max cpc 0.1) * (((101 - difficulty : ℤ) : ℚ) / 100) / 1000) 10) 2

/-- Counterexample to C5 as stated: at volume 100000, cpc 1, difficulty 150
the code clamps the difficulty factor at 1/100 and returns 1, while the
claim's formula yields −49. -/
theorem efficiency_formula_counterexample :
    calculate_efficiency_score 100000 1 150 ≠ claimed_efficiency_formula 100000 1 150 := by
  have hmax : max (1:ℚ) 0.1 = 1 := by norm_num
  have hcode : calculate_efficiency_score 100000 1 150 = 1 := by
    simp only [calculate_efficiency_score]
    rw [if_neg (by norm_num), show max (1:ℤ) (101 - 150) = 1 from by decide, hmax]
    rw [show ((100000:ℚ) / 1) * (((1:ℤ):ℚ) / 100) / 1000 = 1 from by push_cast; norm_num]
    rw [show min (1:ℚ) 10 = 1 from by norm_num]
    rw [pyRound_eq_of_eq_intCast 2 (by norm_num : (1:ℚ) * 10 ^ 2 = ((100:ℤ):ℚ))]
    norm_num
  have hspec : claimed_efficiency_formula 100000 1 150 = -49 := by
    simp only [claimed_efficiency_formula]
    rw [if_neg (by norm_num), hmax]
    rw [show ((100000:ℚ) / 1) * ((((101 - 150 : ℤ)):ℚ) / 100) / 1000 = -49 from by push_cast; norm_num]
    rw [show min (-49:ℚ) 10 = -49 from by norm_num]
    rw [pyRound_eq_of_eq_intCast 2 (by norm_num : (-49:ℚ) * 10 ^ 2 = ((-4900:ℤ):ℚ))]
    norm_num
  rw [hcode, hspec]
  norm_num

/-- Claim C5 as amended: the zero guard is as claimed, and for difficulty in
(0, 100] the claimed formula agrees with the code; for difficulty above 100
the source additionally clamps `101 - difficulty` below at 1. -/
theorem efficiency_score_amended (volume cpc : ℚ) (difficulty : ℤ) :
    (cpc ≤ 0 ∨ difficulty ≤ 0 → calculate_efficiency_score volume cpc difficulty = 0) ∧
    (0 < cpc → 0 < difficulty → difficulty ≤ 100 →
      calculate_efficiency_score volume cpc difficulty =
        pyRound (min ((volume / max cpc 0.1) * (((101 - difficulty : ℤ) : ℚ) / 100) / 1000) 10) 2) := by
  constructor
  · intro h
    simp only [calculate_efficiency_score]
    rw [if_pos h]
  · intro h1 h2 h3
    simp only [calculate_efficiency_score]
    rw [if_neg (by push_neg; exact ⟨h1, h2⟩)]
    rw [show max (1:ℤ) (101 - difficulty) = 101 - difficulty from max_eq_right (by omega)]

/-- Witness for the amended C5 at volume 1000, cpc 1, difficulty 50. -/
theorem efficiency_score_amended_witness :
    (0 < (1:ℚ)) ∧ (0 < (50:ℤ)) ∧ ((50:ℤ) ≤ 100) ∧
    calculate_efficiency_score 1000 1 50 =
      pyRound (min (((1000:ℚ) / max 1 0.1) * (((101 - 50 : ℤ) : ℚ) / 100) / 1000) 10) 2 :=
  ⟨by norm_num, by norm_num, by norm_num,
   (efficiency_score_amended 1000 1 50).2 (by norm_num) (by norm_num) (by norm_num)⟩

/-- Claim C6: the enhanced score is the 0.4/0.3/0.2/0.1-weighted sum of
opportunity, efficiency, budget-fit and goal-alignment scores, clamped to 10
and rounded to 2 decimals; in particular (8.2, 6, 8, 4) yields 7.08. -/
theorem enhanced_score_formula :
    (∀ base efficiency budget goal : ℚ,
      calculate_enhanced_opportunity_score base efficiency budget goal =
        pyRound (min (0.4 * base + 0.3 * efficiency + 0.2 * budget + 0.1 * goal) 10) 2) ∧
    calculate_enhanced_opportunity_score 8.2 6 8 4 = 7.08 := by
  have hgen : ∀ base efficiency budget goal : ℚ,
      calculate_enhanced_opportunity_score base efficiency budget goal =
        pyRound (min (0.4 * base + 0.3 * efficiency + 0.2 * budget + 0.1 * goal) 10) 2 := by
    intro b e bu g
    simp only [calculate_enhanced_opportunity_score]
    rw [show b * 0.4 + e * 0.3 + bu * 0.2 + g * 0.1
        = 0.4 * b + 0.3 * e + 0.2 * bu + 0.1 * g from by ring]
  refine ⟨hgen, ?_⟩
  rw [hgen]
  rw [show min ((0.4:ℚ) * 8.2 + 0.3 * 6 + 0.2 * 8 + 0.1 * 4) 10 = 7.08 from by norm_num]
  rw [pyRound_eq_of_eq_intCast 2 (by norm_num : (7.08:ℚ) * 10 ^ 2 = ((708:ℤ):ℚ))]
  norm_num

/-- Claim C7 (code bug): on the pipeline-generated phrase
"how to choose tire dealers" the heuristic volume estimate is 999/2 = 499.5,
a non-integral value, although the source annotates the function `-> int`
and the dataclass field as `int` and the claim calls it an integer:
`1000 // 3 = 333` is promoted to the float `333 * 1.5 = 499.5`. -/
theorem estimate_volume_non_integral :
    estimate_search_volume "how to choose tire dealers" = 999/2 ∧
    ∀ m : ℤ, estimate_search_volume "how to choose tire dealers" ≠ (m : ℚ) := by
  have heval : estimate_search_volume "how to choose tire dealers" = 999/2 := by
    simp only [estimate_search_volume]
    rw [show (pySplit "how to choose tire dealers").length = 5 from rfl]
    simp only [show (["near me", "local"].any fun word =>
        pyIn word (pyLower "how to choose tire dealers")) = false from rfl,
      show (["best", "top", "review"].any fun word =>
        pyIn word (pyLower "how to choose tire dealers")) = false from rfl,
      show (["how to", "what is", "guide"].any fun word =>
        pyIn word (pyLower "how to choose tire dealers")) = true from rfl,
      Bool.false_eq_true, if_false, if_true]
    rw [if_neg (by norm_num), if_pos (by norm_num)]
    rw [show ⌊(1000:ℚ) / 3⌋ = (333:ℤ) from by norm_num [Int.floor_eq_iff]]
    rw [show ((333:ℤ):ℚ) * 1.5 = 999/2 from by push_cast; norm_num]
    exact max_eq_right (by norm_num)
  refine ⟨heval, ?_⟩
  intro m hm
  rw [heval] at hm
  have h2 : (999 : ℚ) = 2 * m := by
    field_simp at hm
    linarith
  have h3 : (999 : ℤ) = 2 * m := by exact_mod_cast h2
  omega

/-- Counterexample to C8 as stated: called on an empty seed list (with no
providers configured) `research_keywords` returns a plain empty list — an
ordinary successful value.  The source contains no validation or raise for
this case, so no rejection happens before work begins. -/
theorem research_keywords_empty_seed_counterexample :
    research_keywords [] [] = [] := by
  simp [research_keywords, get_free_keyword_suggestions, process_keyword_data, groupObs]

/-- Claim C8 as amended: an empty seed list is not rejected; the heuristic
generator contributes nothing for it and the pipeline silently returns a
normal (empty, when no provider contributed) result. -/
theorem research_keywords_empty_seed_behavior :
    get_free_keyword_suggestions [] = [] ∧
    (∀ provider_results : List (List KeywordData),
      research_keywords provider_results [] =
        process_keyword_data (provider_results.foldl (· ++ ·) [])) ∧
    research_keywords [] [] = [] := by
  have hfree : get_free_keyword_suggestions [] = [] := rfl
  refine ⟨hfree, fun provider_results => ?_, ?_⟩
  · simp only [research_keywords, hfree, List.append_nil]
  · simp [research_keywords, hfree, process_keyword_data, groupObs]

/-- Counterexample to C9 as stated: at competition score 0.999 the source
computes `int(0.999 * 100) = 99` (truncation), while the claim's
`round(0.999 * 100)` is 100. -/
theorem dataforseo_difficulty_counterexample :
    dataforseoDifficulty (999/1000) ≠ pyRoundInt ((999/1000 : ℚ) * 100) := by
  have h1 : dataforseoDifficulty (999/1000) = 99 := by
    unfold dataforseoDifficulty pyInt
    rw [if_pos (by norm_num)]
    norm_num [Int.floor_eq_iff]
  have h2 : pyRoundInt ((999/1000 : ℚ) * 100) = 100 := by
    simp only [pyRoundInt]
    rw [show ⌊(999/1000 : ℚ) * 100⌋ = 99 from by norm_num [Int.floor_eq_iff]]
    rw [if_neg (by norm_num), if_pos (by norm_num)]
    norm_num
  rw [h1, h2]
  norm_num

/-- Claim C9 as amended: the competition label thresholds are as claimed
(≥ 0.7 High, ≥ 0.4 Medium, else Low), while the derived difficulty is the
truncation `int(c × 100)` — the floor, for the non-negative scores at hand —
not the rounding the claim states. -/
theorem dataforseo_competition_mapping (c : ℚ) (h0 : 0 ≤ c) (h1 : c ≤ 1) :
    get_competition_level c =
      (if 0.7 ≤ c then "High" else if 0.4 ≤ c then "Medium" else "Low") ∧
    dataforseoDifficulty c = ⌊c * 100⌋ := by
  constructor
  · unfold get_competition_level
    rfl
  · unfold dataforseoDifficulty pyInt
    rw [if_pos (by positivity)]

/-- Witness for the amended C9 at competition score 1/2. -/
theorem dataforseo_competition_mapping_witness :
    (0 ≤ (1/2 : ℚ)) ∧ ((1/2 : ℚ) ≤ 1) ∧
    (get_competition_level (1/2) =
      (if 0.7 ≤ (1/2 : ℚ) then "High" else if 0.4 ≤ (1/2 : ℚ) then "Medium" else "Low") ∧
     dataforseoDifficulty (1/2) = ⌊(1/2 : ℚ) * 100⌋) :=
  ⟨by norm_num, by norm_num,
   dataforseo_competition_mapping (1/2) (by norm_num) (by norm_num)⟩

/-- Claim C10: `analyze_keywords` never adds or removes records — its output
is a permutation of its input with the score fields attached — and therefore
the final output after `process_keyword_data` can only contain (at most 100)
records that survived the opportunity-score truncation there. -/
theorem analyze_keywords_is_permutation :
    ∀ (keywords : List ProcessedKeyword) (budget_range : String)
      (campaign_goals : List String),
      (analyze_keywords keywords budget_range campaign_goals).Perm
        (keywords.map (enhanceKeyword budget_range campaign_goals)) ∧
      (analyze_keywords keywords budget_range campaign_goals).length = keywords.length ∧
      (∀ r ∈ analyze_keywords keywords budget_range campaign_goals, r.base ∈ keywords) ∧
      ∀ l : List KeywordData,
        (analyze_keywords (process_keyword_data l) budget_range campaign_goals).length ≤ 100 ∧
        ∀ r ∈ analyze_keywords (process_keyword_data l) budget_range campaign_goals,
          r.base ∈ process_keyword_data l := by
  intro keywords budget_range campaign_goals
  have hperm : ∀ kws : List ProcessedKeyword,
      (analyze_keywords kws budget_range campaign_goals).Perm
        (kws.map (enhanceKeyword budget_range campaign_goals)) := by
    intro kws
    unfold analyze_keywords
    split
    · rename_i hnil
      rw [hnil]
      simp
    · exact List.mergeSort_perm _ _
  have hmem : ∀ kws : List ProcessedKeyword,
      ∀ r ∈ analyze_keywords kws budget_range campaign_goals, r.base ∈ kws := by
    intro kws r hr
    have hr2 := (hperm kws).mem_iff.1 hr
    obtain ⟨x, hx, hxe⟩ := List.mem_map.1 hr2
    have hbase : (enhanceKeyword budget_range campaign_goals x).base = x := rfl
    rw [← hxe, hbase]
    exact hx
  have hlen : ∀ kws : List ProcessedKeyword,
      (analyze_keywords kws budget_range campaign_goals).length = kws.length := by
    intro kws
    rw [(hperm kws).length_eq, List.length_map]
  refine ⟨hperm keywords, hlen keywords, hmem keywords, ?_⟩
  intro l
  refine ⟨?_, hmem _⟩
  rw [hlen (process_keyword_data l)]
  exact process_length_le l

theorem mergeGroup_of_one_lt {g : List KeywordData} {g0 : KeywordData}
    (hhead : g.head? = some g0) (h2 : 1 < g.length) :
    mergeGroup g =
      { keyword := g0.keyword
        search_volume := ((⌊(g.map (·.search_volume)).sum / (g.length : ℚ)⌋ : ℤ) : ℚ)
        cpc := pyRound ((g.map (·.cpc)).sum / (g.length : ℚ)) 2
        competition := g0.competition
        difficulty := Int.fdiv (g.map (·.difficulty)).sum (g.length : ℤ)
        intent := g0.intent
        opportunity_score := calculate_opportunity_score
          ((⌊(g.map (·.search_volume)).sum / (g.length : ℚ)⌋ : ℤ) : ℚ)
          ((g.map (·.cpc)).sum / (g.length : ℚ))
          (Int.fdiv (g.map (·.difficulty)).sum (g.length : ℤ)) g0.intent
        sources := (g.map (·.source)).dedup
        trend_data := g0.trend_data } := by
  have hD : g.headD default = g0 := by
    rw [List.headD_eq_head?, hhead]
    rfl
  simp only [mergeGroup, hD, h2, if_true]

theorem truncation_uniform : ∀ d ∈ truncationObservations,
    d.search_volume = 1000 ∧ d.cpc = 1 ∧ d.difficulty = 50 ∧ d.intent = "Mixed" := by
  intro d hd
  rcases List.mem_append.1 hd with hf | hb
  · obtain ⟨kw, _, hkw⟩ := List.mem_map.1 hf
    rw [← hkw]
    exact ⟨rfl, rfl, rfl, rfl⟩
  · rcases List.mem_cons.1 hb with h1 | hb2
    · rw [h1]
      exact ⟨rfl, rfl, rfl, rfl⟩
    · rcases List.mem_cons.1 hb2 with h2 | hb3
      · rw [h2]
        exact ⟨rfl, rfl, rfl, rfl⟩
      · cases hb3

theorem mergeGroup_uniform_score {g : List KeywordData}
    (huni : ∀ d ∈ g, d.search_volume = 1000 ∧ d.cpc = 1 ∧ d.difficulty = 50 ∧
      d.intent = "Mixed")
    (hne : g ≠ []) :
    (mergeGroup g).opportunity_score = calculate_opportunity_score 1000 1 50 "Mixed" := by
  obtain ⟨x, t, hxt⟩ : ∃ x t, g = x :: t := by
    cases g with
    | nil => exact absurd rfl hne
    | cons x t => exact ⟨x, t, rfl⟩
  have hx := huni x (by rw [hxt]; exact List.mem_cons_self x t)
  have hbest : g.headD default = x := by
    rw [hxt]
    rfl
  have hn0 : g.length ≠ 0 := by
    rw [hxt]
    simp
  by_cases h1 : 1 < g.length
  · have hnq : ((g.length : ℚ)) ≠ 0 := by exact_mod_cast hn0
    have hnz : ((g.length : ℤ)) ≠ 0 := by exact_mod_cast hn0
    have hvol : g.map (fun d => d.search_volume) = List.replicate g.length (1000 : ℚ) := by
      have hrep := List.eq_replicate_of_mem (a := (1000 : ℚ))
        (l := g.map fun d => d.search_volume) ?_
      · rwa [List.length_map] at hrep
      · intro b hb
        obtain ⟨d, hd, hdb⟩ := List.mem_map.1 hb
        rw [← hdb]
        exact (huni d hd).1
    have hcpc : g.map (fun d => d.cpc) = List.replicate g.length (1 : ℚ) := by
      have hrep := List.eq_replicate_of_mem (a := (1 : ℚ))
        (l := g.map fun d => d.cpc) ?_
      · rwa [List.length_map] at hrep
      · intro b hb
        obtain ⟨d, hd, hdb⟩ := List.mem_map.1 hb
        rw [← hdb]
        exact (huni d hd).2.1
    have hdif : g.map (fun d => d.difficulty) = List.replicate g.length (50 : ℤ) := by
      have hrep := List.eq_replicate_of_mem (a := (50 : ℤ))
        (l := g.map fun d => d.difficulty) ?_
      · rwa [List.length_map] at hrep
      · intro b hb
        obtain ⟨d, hd, hdb⟩ := List.mem_map.1 hb
        rw [← hdb]
        exact (huni d hd).2.2.1
    have hA : ((⌊(g.map (fun d => d.search_volume)).sum / (g.length : ℚ)⌋ : ℤ) : ℚ)
        = 1000 := by
      rw [hvol, List.sum_replicate, nsmul_eq_mul, mul_div_cancel_left₀ _ hnq]
      rw [show (1000 : ℚ) = ((1000 : ℤ) : ℚ) from by norm_num, Int.floor_intCast]
    have hB : (g.map (fun d => d.cpc)).sum / (g.length : ℚ) = 1 := by
      rw [hcpc, List.sum_replicate, nsmul_eq_mul, mul_div_cancel_left₀ _ hnq]
    have hC : Int.fdiv (g.map (fun d => d.difficulty)).sum (g.length : ℤ) = 50 := by
      rw [hdif, List.sum_replicate, nsmul_eq_mul, Int.mul_fdiv_cancel_left _ hnz]
    simp only [mergeGroup, hbest, h1, if_true]
    rw [hA, hB, hC, hx.2.2.2]
  · simp only [mergeGroup, hbest, if_neg h1]
    rw [hx.1, hx.2.1, hx.2.2.1, hx.2.2.2]

theorem truncation_records_score :
    ∀ r ∈ (groupObs truncationObservations).map (fun p => mergeGroup p.2),
      r.opportunity_score = calculate_opportunity_score 1000 1 50 "Mixed" := by
  intro r hr
  obtain ⟨p, hp, hrm⟩ := List.mem_map.1 hr
  have hp2 : (p.1, p.2) ∈ groupObs truncationObservations := by
    cases p
    exact hp
  obtain ⟨hg, hne⟩ := mem_groupObs_filter hp2
  have huni : ∀ d ∈ p.2, d.search_volume = 1000 ∧ d.cpc = 1 ∧ d.difficulty = 50 ∧
      d.intent = "Mixed" := by
    intro d hd
    rw [hg] at hd
    exact truncation_uniform d (List.mem_filter.1 hd).1
  rw [← hrm]
  exact mergeGroup_uniform_score huni hne

theorem truncation_sort_id :
    ((groupObs truncationObservations).map (fun p => mergeGroup p.2)).mergeSort
      (fun a b => decide (b.opportunity_score ≤ a.opportunity_score)) =
    (groupObs truncationObservations).map (fun p => mergeGroup p.2) := by
  apply List.mergeSort_of_sorted
  apply List.pairwise_of_forall_mem_list
  intro a ha b hb
  have hle : b.opportunity_score ≤ a.opportunity_score := by
    rw [truncation_records_score a ha, truncation_records_score b hb]
  exact decide_eq_true hle

theorem truncation_group_keys :
    (groupObs truncationObservations).map Prod.fst =
      fillerKeywords ++ ["best tire shop"] := by decide

/-- Counterexample to C2 as stated, at the concrete input
`truncationObservations`: its "best tire shop" group has two observations,
yet (i) the record dict built by `process_keyword_data` (source lines
537-547) carries no `related_keywords` key at all, so no record's related
keywords are taken from the group's first observation, and (ii) the function
produces NO record for that group — 101 merged records share one opportunity
score, the stable descending sort keeps insertion order, and the `[:100]`
truncation drops the group's record — refuting "exactly one record". -/
theorem process_group_record_counterexample :
    "related_keywords" ∉ processedKeywordFieldNames ∧
    (truncationObservations.filter
      (fun d => decide (normKey d.keyword = "best tire shop"))).length = 2 ∧
    (process_keyword_data truncationObservations).filter
      (fun r => decide (normKey r.keyword = "best tire shop")) = [] := by
  refine ⟨by decide, by decide, ?_⟩
  simp only [process_keyword_data]
  rw [truncation_sort_id, ← List.map_take, List.filter_eq_nil_iff]
  intro r hr
  obtain ⟨p, hp, hrm⟩ := List.mem_map.1 hr
  have hpmem : p ∈ groupObs truncationObservations := List.mem_of_mem_take hp
  have hp2 : (p.1, p.2) ∈ groupObs truncationObservations := by
    cases p
    exact hpmem
  have hkey : normKey (mergeGroup p.2).keyword = p.1 := mergeGroup_key hp2
  have hp1 : p.1 ∈ ((groupObs truncationObservations).take 100).map Prod.fst :=
    List.mem_map.2 ⟨p, hp, rfl⟩
  rw [List.map_take, truncation_group_keys] at hp1
  have hfk_len : fillerKeywords.length = 100 := by
    simp [fillerKeywords]
  rw [show (fillerKeywords ++ ["best tire shop"]).take 100 = fillerKeywords from by
    rw [← hfk_len]
    exact List.take_left fillerKeywords ["best tire shop"]] at hp1
  have hne_all : ∀ s ∈ fillerKeywords, s ≠ "best tire shop" := by decide
  rw [← hrm]
  simp only [decide_eq_true_eq, hkey]
  exact hne_all p.1 hp1

/-- Claim C2 as amended: for a group of two or more observations sharing one
normalised key (and at most 100 distinct keys overall, so the record is not
truncated away), `process_keyword_data` emits exactly one record for that
key: volume is the floor of the group mean, cpc the mean rounded to two
decimals, difficulty the floor of the mean, competition/intent/trend_data
come verbatim from the first observation in arrival order, and sources is
the de-duplicated list of the group's provider ids; `related_keywords` is not
part of the output record. -/
theorem process_merges_group (l : List KeywordData) (k : String)
    (g : List KeywordData) (g0 : KeywordData)
    (hg : g = l.filter (fun d => decide (normKey d.keyword = k)))
    (h2 : 2 ≤ g.length)
    (hhead : g.head? = some g0)
    (h100 : (groupObs l).length ≤ 100) :
    (process_keyword_data l).filter (fun r => decide (normKey r.keyword = k)) =
      [{ keyword := g0.keyword
         search_volume := ((⌊(g.map (·.search_volume)).sum / (g.length : ℚ)⌋ : ℤ) : ℚ)
         cpc := pyRound ((g.map (·.cpc)).sum / (g.length : ℚ)) 2
         competition := g0.competition
         difficulty := Int.fdiv (g.map (·.difficulty)).sum (g.length : ℤ)
         intent := g0.intent
         opportunity_score := calculate_opportunity_score
           ((⌊(g.map (·.search_volume)).sum / (g.length : ℚ)⌋ : ℤ) : ℚ)
           ((g.map (·.cpc)).sum / (g.length : ℚ))
           (Int.fdiv (g.map (·.difficulty)).sum (g.length : ℤ)) g0.intent
         sources := (g.map (·.source)).dedup
         trend_data := g0.trend_data }] := by
  have hne : g ≠ [] := by
    intro hcontra
    rw [hcontra] at h2
    simp at h2
  have hfne : l.filter (fun d => decide (normKey d.keyword = k)) ≠ [] := by
    rw [← hg]
    exact hne
  have hmem : (k, g) ∈ groupObs l := by
    rw [hg]
    exact filter_mem_groupObs hfne
  have hfilrec : (((groupObs l).map fun p => mergeGroup p.2).filter
      fun r => decide (normKey r.keyword = k)) = [mergeGroup g] := by
    rw [List.filter_map]
    have hcong : (groupObs l).filter
        ((fun r => decide (normKey r.keyword = k)) ∘ fun p => mergeGroup p.2)
        = (groupObs l).filter (fun p => decide (p.1 = k)) := by
      apply List.filter_congr
      intro p hp
      have hp2 : (p.1, p.2) ∈ groupObs l := by
        cases p
        exact hp
      have hkey : normKey (mergeGroup p.2).keyword = p.1 := mergeGroup_key hp2
      simp [Function.comp, hkey]
    rw [hcong, filter_key_singleton (groupObs_keys_nodup l) hmem]
    rfl
  have hlen_rec : (((groupObs l).map fun p => mergeGroup p.2).mergeSort
      (fun a b => decide (b.opportunity_score ≤ a.opportunity_score))).length ≤ 100 := by
    rw [List.length_mergeSort, List.length_map]
    exact h100
  simp only [process_keyword_data]
  rw [List.take_of_length_le hlen_rec]
  have hperm := List.mergeSort_perm ((groupObs l).map fun p => mergeGroup p.2)
    (fun a b => decide (b.opportunity_score ≤ a.opportunity_score))
  have hfp := hperm.filter (fun r => decide (normKey r.keyword = k))
  rw [hfilrec] at hfp
  rw [List.perm_singleton.1 hfp]
  rw [mergeGroup_of_one_lt hhead (by omega)]

/-- Witness for the amended C2 on the spec's concrete three-provider group:
the hypotheses hold, the merged record is the theorem's, and its volume, cpc,
difficulty and sources evaluate to 2000, 2.00, 20 and exactly the three
provider ids. -/
theorem process_merges_group_witness :
    (exampleObservations =
      exampleObservations.filter (fun d => decide (normKey d.keyword = "best tire shop"))) ∧
    2 ≤ exampleObservations.length ∧
    exampleObservations.head? = some exampleFirstObservation ∧
    (groupObs exampleObservations).length ≤ 100 ∧
    ((process_keyword_data exampleObservations).filter
        (fun r => decide (normKey r.keyword = "best tire shop"))).map
      (fun r => (r.search_volume, r.cpc, r.difficulty, r.sources)) =
      [((2000 : ℚ), (2 : ℚ), (20 : ℤ), ["DataForSEO", "SerpApi", "SEMrush"])] := by
  have hthm := process_merges_group exampleObservations "best tire shop"
    exampleObservations exampleFirstObservation rfl (by decide) rfl (by decide)
  refine ⟨rfl, by decide, rfl, by decide, ?_⟩
  rw [hthm]
  simp only [List.map_cons, List.map_nil]
  have hsv : (exampleObservations.map (fun d => d.search_volume)).sum /
      ((exampleObservations.length : ℚ)) = ((2000:ℤ):ℚ) := by
    norm_num [exampleObservations, exampleFirstObservation]
  have hcpc : (exampleObservations.map (fun d => d.cpc)).sum /
      ((exampleObservations.length : ℚ)) = ((2:ℤ):ℚ) := by
    norm_num [exampleObservations, exampleFirstObservation]
  have hdif : Int.fdiv ((exampleObservations.map (fun d => d.difficulty)).sum)
      ((exampleObservations.length : ℤ)) = 20 := by decide
  have hsrc : (exampleObservations.map (fun d => d.source)).dedup =
      ["DataForSEO", "SerpApi", "SEMrush"] := by decide
  rw [hsv, Int.floor_intCast, hcpc, pyRound_intCast, hdif, hsrc]
  norm_num
